import Mathlib

/-
Verification of the curseforge-dl installer core against its specification.

The development shallowly embeds the Python sources:
  src/curseforge_dl/fingerprint.py  (MurmurHash2 fingerprint engine)
  src/curseforge_dl/url.py          (CDN URL resolver)
  src/curseforge_dl/installer.py    (manifest parsing, overrides extraction,
                                     resolution / classification / download pipeline)
  src/curseforge_dl/models.py       (data shapes)

Bytes are modelled as natural numbers; 32-bit unsigned arithmetic is modelled
with explicit reduction modulo 2 ^ 32.  Python truthiness of optional strings
(None and the empty string are falsy) is modelled by strTruthy.  Network and
filesystem effects are modelled by explicit oracles passed as functions.
-/

namespace CurseforgeDl

/-- Modulus for unsigned 32-bit arithmetic. -/
def U32 : Nat := 4294967296

/-- Whitespace bytes stripped before hashing (fingerprint.py, _WHITESPACE). -/
def WHITESPACE : List Nat := [0x09, 0x0A, 0x0D, 0x20]

/-- Embedding of fingerprint.py _strip_whitespace: drop the whitespace bytes. -/
def strip_whitespace (data : List Nat) : List Nat :=
  data.filter (fun b => !(WHITESPACE.contains b))

/-- Embedding of the while-loop of fingerprint.py _murmur_hash2: consume the
input four bytes at a time (little-endian word k), mixing each word into h,
and return the final h together with the 0-3 unconsumed trailing bytes. -/
def murmurLoop (m : Nat) (h : Nat) : List Nat → Nat × List Nat
  | b0 :: b1 :: b2 :: b3 :: rest =>
      let k0 := b0 + b1 * 256 + b2 * 65536 + b3 * 16777216
      let k1 := (k0 * m) % U32
      let k2 := k1 ^^^ (k1 >>> 24)
      let k3 := (k2 * m) % U32
      let h1 := (h * m) % U32
      let h2 := (h1 ^^^ k3) % U32
      murmurLoop m h2 rest
  | rest => (h, rest)

/-- Embedding of fingerprint.py _murmur_hash2 (32-bit MurmurHash2): seed XOR
length, word mixing loop, trailing-byte handling, finalization; all products
reduced modulo 2 ^ 32 as the source masks with 0xFFFFFFFF. -/
def murmur_hash2 (data : List Nat) (seed : Nat) : Nat :=
  let m := 0x5BD1E995
  let h0 := seed ^^^ data.length
  let p := murmurLoop m h0 data
  let t := p.2
  let ha := p.1
  let hb := if t.length = 3 then ha ^^^ ((t.getD 2 0) <<< 16) else ha
  let hc := if 2 ≤ t.length then hb ^^^ ((t.getD 1 0) <<< 8) else hb
  let hd := if 1 ≤ t.length then ((hc ^^^ t.getD 0 0) * m) % U32 else hc
  let he := hd ^^^ (hd >>> 13)
  let hf := (he * m) % U32
  hf ^^^ (hf >>> 15)

/-- Embedding of fingerprint.py curseforge_fingerprint_bytes: strip whitespace
bytes, then MurmurHash2 with seed 1. -/
def curseforge_fingerprint_bytes (data : List Nat) : Nat :=
  murmur_hash2 (strip_whitespace data) 1

/-- Reference definition, following the words of the specification: the 4-byte
little-endian words of a byte list. -/
def specWords : List Nat → List Nat
  | b0 :: b1 :: b2 :: b3 :: rest =>
      (b0 + b1 * 256 + b2 * 65536 + b3 * 16777216) :: specWords rest
  | _ => []

/-- Reference definition, following the words of the specification: the 0-3
trailing bytes left after the complete 4-byte words. -/
def specTrailing : List Nat → List Nat
  | _ :: _ :: _ :: _ :: rest => specTrailing rest
  | rest => rest

/-- Reference definition, following the words of the specification: the word
mix k *= m; k ^= k >> 24; k *= m, with unsigned 32-bit wraparound. -/
def specMixWord (m k : Nat) : Nat :=
  let k1 := (k * m) % U32
  let k2 := k1 ^^^ (k1 >>> 24)
  (k2 * m) % U32

/-- Reference definition, following the words of the specification: one body
step h *= m; h ^= mixedWord. -/
def specStep (m h k : Nat) : Nat :=
  ((h * m) % U32) ^^^ specMixWord m k

/-- Reference definition of the fingerprint assembled from the specification
text: discard bytes 0x09, 0x0A, 0x0D, 0x20; h = seed XOR strippedLength with
seed 1; fold the word mix over the little-endian words; XOR the trailing bytes
in (byte 2 shifted 16 when 3 remain, byte 1 shifted 8 when at least 2 remain,
byte 0 when at least 1 remains, then one h *= m step only in that last case);
finalize h ^= h >> 13; h *= m; h ^= h >> 15. -/
def fingerprint_reference (data : List Nat) : Nat :=
  let m := 0x5BD1E995
  let stripped := data.filter
    (fun b => !(b == 0x09) && !(b == 0x0A) && !(b == 0x0D) && !(b == 0x20))
  let h0 := 1 ^^^ stripped.length
  let hw := (specWords stripped).foldl (specStep m) h0
  let t := specTrailing stripped
  let h1 := if t.length = 3 then hw ^^^ ((t.getD 2 0) <<< 16) else hw
  let h2 := if 2 ≤ t.length then h1 ^^^ ((t.getD 1 0) <<< 8) else h1
  let h3 := if 1 ≤ t.length then ((h2 ^^^ t.getD 0 0) * m) % U32 else h2
  let h4 := h3 ^^^ (h3 >>> 13)
  let h5 := (h4 * m) % U32
  h5 ^^^ (h5 >>> 15)

/-- Python truthiness of an optional string: None and the empty string are
falsy, every other string is truthy. -/
def strTruthy : Option String → Bool
  | none => false
  | some s => !(s == "")

/-- Embedding of models.py AddonFile, restricted to the fields the verified
operations read. file_date stands for the datetime as an abstract timestamp;
none models a missing fileDate. -/
structure AddonFile where
  id : Nat
  file_name : String
  download_url : Option String
  game_versions : List String
  is_server_pack : Bool
  file_date : Option Nat
deriving DecidableEq, Repr

/-- Embedding of url.py build_cdn_url. -/
def build_cdn_url (file_id : Nat) (file_name : String) : String :=
  "https://edge.forgecdn.net/files/" ++ toString (file_id / 1000) ++ "/" ++
    toString (file_id % 1000) ++ "/" ++ file_name

/-- Embedding of url.py get_download_url: a truthy downloadUrl is returned
verbatim, otherwise the CDN fallback URL is built. -/
def get_download_url (f : AddonFile) : String :=
  match f.download_url with
  | some s => if s = "" then build_cdn_url f.id f.file_name else s
  | none => build_cdn_url f.id f.file_name

/-- Member of the namelist of a zip archive: entry name, directory flag, and
the entry's bytes. -/
structure ZipEntry where
  filename : String
  isDir : Bool
  content : List Nat
deriving DecidableEq, Repr

/-- Test whether the pattern string is a suffix of s (str.endswith). -/
def endsWithStr (s pat : String) : Bool :=
  pat.data.isSuffixOf s.data

/-- Name test used by installer.py _parse_manifest on each namelist entry:
name == "manifest.json" or name.endswith("/manifest.json"). -/
def manifest_entry_name (name : String) : Bool :=
  name == "manifest.json" || endsWithStr name "/manifest.json"

/-- Embedding of installer.py _parse_manifest: return the document bytes of
the first namelist entry whose name matches, else the manifest-not-found
error. Deserialization of the located document is modelled as returning it. -/
def parse_manifest (entries : List ZipEntry) : Except String (List Nat) :=
  match entries.find? (fun e => manifest_entry_name e.filename) with
  | some e => Except.ok e.content
  | none => Except.error "No manifest.json found in modpack zip"

/-- Test whether an Except value is a success. -/
def exceptOk (r : Except String (List Nat)) : Bool :=
  match r with
  | Except.ok _ => true
  | Except.error _ => false

/-- Predicate written from the claim's words: the manifest document sits at
the archive root (name is exactly "manifest.json") or exactly one path
segment deep (name is seg/manifest.json where seg holds no slash). -/
def rootOrOneDeep (name : String) : Bool :=
  name == "manifest.json" ||
    (endsWithStr name "/manifest.json" &&
      !((name.data.take (name.data.length - "/manifest.json".data.length)).contains '/'))

/-- Outcome of one catalog call: success, an HTTPStatusError with a status
code, or any other raised error. -/
inductive ApiOutcome (α : Type) where
  | ok (value : α)
  | httpStatus (code : Nat)
  | failure
deriving DecidableEq, Repr

/-- Test whether a catalog call raised (did not return a value). -/
def apiFailed (r : ApiOutcome AddonFile) : Bool :=
  match r with
  | ApiOutcome.ok _ => false
  | ApiOutcome.httpStatus _ => true
  | ApiOutcome.failure => true

/-- Embedding of models.py CurseManifestFile: one manifest file entry. -/
structure CurseManifestFile where
  project_id : Nat
  file_id : Nat
  file_name : Option String
  url : Option String
  required : Bool
deriving DecidableEq, Repr

/-- Embedding of the resolve_one closure of installer.py _resolve_files for a
single entry, with the catalog modelled as an oracle from (projectId, fileId)
to an outcome. Returns the value stored at the entry's index together with
the list of catalog calls issued. Entries already carrying a truthy fileName
and url pass through; a raised lookup keeps the entry unchanged. -/
def resolve_one (api : Nat → Nat → ApiOutcome AddonFile) (f : CurseManifestFile) :
    CurseManifestFile × List (Nat × Nat) :=
  if strTruthy f.file_name && strTruthy f.url then (f, [])
  else
    match api f.project_id f.file_id with
    | ApiOutcome.ok af =>
        let durl := match af.download_url with
          | some s => if s = "" then build_cdn_url af.id af.file_name else s
          | none => build_cdn_url af.id af.file_name
        (⟨f.project_id, f.file_id, some af.file_name, some durl, f.required⟩,
          [(f.project_id, f.file_id)])
    | ApiOutcome.httpStatus _ => (f, [(f.project_id, f.file_id)])
    | ApiOutcome.failure => (f, [(f.project_id, f.file_id)])

/-- Embedding of installer.py _resolve_files: every resolved slot is filled
(no slot stays None), so the final filter keeps every slot and the result is
the per-index resolution of the input. -/
def resolve_files (api : Nat → Nat → ApiOutcome AddonFile)
    (files : List CurseManifestFile) : List CurseManifestFile :=
  files.map (fun f => (resolve_one api f).1)

/-- Key fields of a manifest entry that resolution must preserve. -/
def entryKey (f : CurseManifestFile) : Nat × Nat × Bool :=
  (f.project_id, f.file_id, f.required)

/-- Value that the task for slot i writes into the resolved array. -/
def resolveValue (api : Nat → Nat → ApiOutcome AddonFile)
    (files : List CurseManifestFile) (i : Nat) : Option CurseManifestFile :=
  (files[i]?).map (fun f => (resolve_one api f).1)

/-- Model of the concurrent execution of _resolve_files: the tasks finish in
the given completion order, each writing only its own slot of the resolved
array (modelled as a map from index to an optional entry). -/
def runSchedule (api : Nat → Nat → ApiOutcome AddonFile)
    (files : List CurseManifestFile) (order : List Nat) :
    Nat → Option CurseManifestFile :=
  order.foldl
    (fun slots i => fun j => if j = i then resolveValue api files i else slots j)
    (fun _ => none)

/-- Read the first n slots of the resolved array in index order. -/
def readout (n : Nat) (slots : Nat → Option CurseManifestFile) :
    List (Option CurseManifestFile) :=
  (List.range n).map slots

/-- Embedding of the download-set filter of installer.py _download_files:
keep the entries with a truthy fileName and url. -/
def downloadable (files : List CurseManifestFile) : List CurseManifestFile :=
  files.filter (fun f => strTruthy f.file_name && strTruthy f.url)

/-- Outcome of one download attempt against the stream oracle: a success
writes the full content; a raised attempt leaves behind the given on-disk
state (none when nothing was written, some bytes for a half-written file). -/
inductive AttemptOutcome where
  | success (content : List Nat)
  | failure (leftover : Option (List Nat))
deriving DecidableEq, Repr

/-- Test whether a download attempt outcome is a raised error. -/
def attemptFailed (o : AttemptOutcome) : Bool :=
  match o with
  | AttemptOutcome.success _ => false
  | AttemptOutcome.failure _ => true

/-- Observable result of the download_one closure of installer.py
_download_files for one target: final on-disk state of the target path, the
number of attempts issued, the backoff waits slept in order, and whether the
entry was recorded as failed. -/
structure DownloadRun where
  disk : Option (List Nat)
  attemptsMade : Nat
  waits : List Nat
  recordedFailed : Bool
deriving DecidableEq, Repr

/-- Embedding of the retry loop of download_one: fuel counts the attempts
still allowed (attempt < max_retries is fuel not zero), attempt is the 1-based
attempt counter, disk the current target state, waits the backoffs slept so
far in reverse.  A success breaks with the full content on disk.  On raising
with retries left, the partial file is deleted and 2 ^ attempt is slept; when
the final allowed attempt raises, the loop exits with last_error set, so the
post-loop cleanup deletes any partial file and records the entry as failed
(that exit is inlined here).  With fuel 0 the loop body never runs (the
range is empty) and last_error stays None. -/
def download_go (oracle : Nat → AttemptOutcome) :
    Nat → Nat → Option (List Nat) → List Nat → DownloadRun
  | 0, attempt, disk, waits => ⟨disk, attempt - 1, waits.reverse, false⟩
  | fuel + 1, attempt, _, waits =>
      match oracle attempt with
      | AttemptOutcome.success content =>
          ⟨some content, attempt, waits.reverse, false⟩
      | AttemptOutcome.failure _ =>
          if fuel = 0 then ⟨none, attempt, waits.reverse, true⟩
          else download_go oracle fuel (attempt + 1) none (2 ^ attempt :: waits)

/-- Embedding of download_one of installer.py _download_files: an existing
destination is skipped untouched with no attempt; otherwise the retry loop
runs with the 1-based attempt counter from 1 up to maxRetries. -/
def download_one (oracle : Nat → AttemptOutcome) (maxRetries : Nat)
    (existing : Option (List Nat)) : DownloadRun :=
  match existing with
  | some content => ⟨some content, 0, [], false⟩
  | none => download_go oracle maxRetries 1 none []

/-- Embedding of the fan-out of installer.py _download_files: every target is
given to download_one; a failed sibling does not remove the others. A plan is
the target's stream oracle together with the pre-existing state of its
destination path. -/
def download_files (maxRetries : Nat)
    (plans : List ((Nat → AttemptOutcome) × Option (List Nat))) : List DownloadRun :=
  plans.map (fun p => download_one p.1 maxRetries p.2)

/-- Embedding of models.py CurseAddon, restricted to the fields the verified
operations read. -/
structure CurseAddon where
  id : Nat
  class_id : Nat
  latest_files : List AddonFile
deriving DecidableEq, Repr

/-- Section constant from models.py. -/
def SECTION_MOD : Nat := 6

/-- Section constant from models.py. -/
def SECTION_RESOURCE_PACK : Nat := 12

/-- Section constant from models.py. -/
def SECTION_MODPACK : Nat := 4471

/-- Section constant from models.py. -/
def SECTION_SHADER_PACK : Nat := 6552

/-- Test whether a project metadata call raised. -/
def projectCallFailed (r : ApiOutcome CurseAddon) : Bool :=
  match r with
  | ApiOutcome.ok _ => false
  | ApiOutcome.httpStatus _ => true
  | ApiOutcome.failure => true

/-- Embedding of the fetch_class_id closure of installer.py
_determine_file_targets: a successful project lookup yields its classId, any
raised lookup defaults to SECTION_MOD. -/
def fetch_class_id (api : Nat → ApiOutcome CurseAddon) (pid : Nat) : Nat :=
  match api pid with
  | ApiOutcome.ok addon => addon.class_id
  | ApiOutcome.httpStatus _ => SECTION_MOD
  | ApiOutcome.failure => SECTION_MOD

/-- Embedding of the project-id deduplication of _determine_file_targets
(unique_ids = set of project ids): each distinct referenced project appears
exactly once in the queried list. -/
def queried_ids (files : List CurseManifestFile) : List Nat :=
  (files.map (fun f => f.project_id)).dedup

/-- Embedding of the classId-to-subdirectory mapping of
_determine_file_targets. -/
def class_subdir (cid : Nat) : String :=
  if cid = SECTION_RESOURCE_PACK then "resourcepacks"
  else if cid = SECTION_SHADER_PACK then "shaderpacks"
  else "mods"

/-- Embedding of installer.py _determine_file_targets: pair every entry with
the destination subdirectory chosen from its project's classId.  The source
fills the class_ids dict for every id of unique_ids (the error branch also
writes SECTION_MOD), so the dict lookup with default never misses and equals
fetch_class_id applied to the entry's project id. -/
def determine_file_targets (api : Nat → ApiOutcome CurseAddon)
    (files : List CurseManifestFile) : List (CurseManifestFile × String) :=
  files.map (fun f => (f, class_subdir (fetch_class_id api f.project_id)))

/-- Drop the trailing slashes of a string (str.rstrip with "/"). -/
def rstripSlashes (s : String) : String :=
  ⟨(s.data.reverse.dropWhile (fun c => c == '/')).reverse⟩

/-- Normalization of the overrides name done by installer.py
_extract_overrides: overrides_prefix.rstrip("/") + "/". -/
def normalizedOverrides (op : String) : String :=
  rstripSlashes op ++ "/"

/-- Test whether the pattern string starts s (str.startswith). -/
def startsWithStr (s pat : String) : Bool :=
  pat.data.isPrefixOf s.data

/-- Drop the first n characters of a string (slicing with s[n:]). -/
def dropChars (s : String) (n : Nat) : String :=
  ⟨s.data.drop n⟩

/-- Relative path of an entry under the overrides subtree: the entry name
with the characters of the normalized overrides name dropped. -/
def relAfter (op s : String) : String :=
  dropChars s (normalizedOverrides op).data.length

/-- Embedding of installer.py _extract_overrides: walk the archive in order;
an entry is written when its name starts with the normalized overrides name,
is not a directory, and its stripped relative path is non-empty.  Returns the
written (relative path, bytes) pairs in order together with the count. -/
def extract_overrides (entries : List ZipEntry) (op : String) :
    List (String × List Nat) × Nat :=
  entries.foldl
    (fun acc info =>
      if startsWithStr info.filename (normalizedOverrides op) then
        let rel := relAfter op info.filename
        if rel.data.isEmpty || info.isDir then acc
        else (acc.1 ++ [(rel, info.content)], acc.2 + 1)
      else acc)
    ([], 0)

/-- Characterization written from the claim's words: the write an archive
entry produces, when it does (inside the overrides subtree, not a directory,
non-empty stripped relative path). -/
def overridesSelect (op : String) (info : ZipEntry) : Option (String × List Nat) :=
  if startsWithStr info.filename (normalizedOverrides op)
      && !info.isDir
      && !(relAfter op info.filename).data.isEmpty then
    some (relAfter op info.filename, info.content)
  else none

/-- Sort key used by installer.py _select_latest_file: the fileDate with a
missing date replaced by datetime.min (modelled as 0). -/
def dateKey (f : AddonFile) : Nat :=
  f.file_date.getD 0

/-- Embedding of the first filter of _select_latest_file: the non-server-pack
latest files with a truthy fileName. -/
def latest_candidates (addon : CurseAddon) : List AddonFile :=
  addon.latest_files.filter (fun f => !f.is_server_pack && !(f.file_name == ""))

/-- Embedding of installer.py _select_latest_file: filter to the candidates
listing the requested game version only when that filter is non-empty, then
sort by date descending (stable) and take the head. -/
def select_latest_file (addon : CurseAddon) (game_version : String) :
    Option AddonFile :=
  let candidates := latest_candidates addon
  let candidates :=
    if game_version == "" then candidates
    else
      let filtered := candidates.filter (fun f => f.game_versions.contains game_version)
      if filtered.isEmpty then candidates else filtered
  match candidates.mergeSort (fun a b => decide (dateKey b ≤ dateKey a)) with
  | [] => none
  | c :: _ => some c

/-- Candidate pool of _select_latest_file after the game-version filtering
step (the let-free spelling of the candidates the sort runs on). -/
def selectPool (addon : CurseAddon) (gv : String) : List AddonFile :=
  if gv == "" then latest_candidates addon
  else if ((latest_candidates addon).filter
      (fun f => f.game_versions.contains gv)).isEmpty then latest_candidates addon
  else (latest_candidates addon).filter (fun f => f.game_versions.contains gv)

theorem xor_lt_U32 {a b : Nat} (ha : a < U32) (hb : b < U32) : a ^^^ b < U32 := by
  have h32 : U32 = 2 ^ 32 := by norm_num [U32]
  rw [h32] at ha hb ⊢
  exact Nat.xor_lt_two_pow ha hb

theorem U32_pos : 0 < U32 := by norm_num [U32]

theorem specStep_lt (m h k : Nat) : specStep m h k < U32 := by
  unfold specStep specMixWord
  exact xor_lt_U32 (Nat.mod_lt _ U32_pos) (Nat.mod_lt _ U32_pos)

theorem loopStep_eq (m h k : Nat) :
    (h * m % U32 ^^^ (k * m % U32 ^^^ (k * m % U32) >>> 24) * m % U32) % U32
      = specStep m h k := by
  have hs : specStep m h k
      = h * m % U32 ^^^ (k * m % U32 ^^^ (k * m % U32) >>> 24) * m % U32 := by
    unfold specStep specMixWord
    rfl
  rw [← hs]
  exact Nat.mod_eq_of_lt (specStep_lt m h k)

theorem murmurLoop_eq_spec (m : Nat) :
    ∀ (data : List Nat) (h : Nat),
      murmurLoop m h data = ((specWords data).foldl (specStep m) h, specTrailing data) := by
  intro data
  induction data using specWords.induct with
  | case1 b0 b1 b2 b3 rest ih =>
      intro h
      rw [murmurLoop, specWords, specTrailing]
      simp only [List.foldl_cons]
      rw [ih, loopStep_eq]
  | case2 rest hne =>
      intro h
      cases rest with
      | nil => rfl
      | cons a as =>
        cases as with
        | nil => rfl
        | cons b bs =>
          cases bs with
          | nil => rfl
          | cons c cs =>
            cases cs with
            | nil => rfl
            | cons d ds => exact absurd rfl (hne a b c d ds)

theorem strip_whitespace_eq (data : List Nat) :
    strip_whitespace data = data.filter
      (fun b => !(b == 0x09) && !(b == 0x0A) && !(b == 0x0D) && !(b == 0x20)) := by
  unfold strip_whitespace WHITESPACE
  apply List.filter_congr
  intro b _
  have hbd : ∀ x y : Nat, (x == y) = decide (x = y) := by
    intro x y
    by_cases h : x = y <;> simp [h]
  simp [List.contains_cons, Bool.not_or, Bool.and_assoc, hbd]

theorem shiftRight_le_self (n k : Nat) : n >>> k ≤ n := by
  rw [Nat.shiftRight_eq_div_pow]
  exact Nat.div_le_self n (2 ^ k)

/-- C1: for every byte string, curseforge_fingerprint_bytes equals the
reference fingerprint assembled from the specification text (whitespace
stripping, seed-1 MurmurHash2 with multiplier 0x5BD1E995 and shift 24, the
stated trailing-byte and finalization steps, all arithmetic unsigned 32-bit
with wraparound), and the result is an unsigned 32-bit integer. -/
theorem c1_fingerprint_matches_reference (data : List Nat) :
    curseforge_fingerprint_bytes data = fingerprint_reference data
    ∧ curseforge_fingerprint_bytes data < 2 ^ 32 := by
  have hmain : curseforge_fingerprint_bytes data = fingerprint_reference data := by
    unfold curseforge_fingerprint_bytes fingerprint_reference murmur_hash2
    rw [strip_whitespace_eq]
    simp only [murmurLoop_eq_spec]
  refine ⟨hmain, ?_⟩
  have hlt : ∀ x : Nat, x % U32 ^^^ (x % U32) >>> 15 < U32 := by
    intro x
    exact xor_lt_U32 (Nat.mod_lt _ U32_pos)
      (Nat.lt_of_le_of_lt (shiftRight_le_self _ _) (Nat.mod_lt _ U32_pos))
  have hU : U32 = 2 ^ 32 := by norm_num [U32]
  unfold curseforge_fingerprint_bytes murmur_hash2
  rw [← hU]
  exact hlt _

/-- C2: a non-empty downloadUrl is returned verbatim regardless of id and
fileName; a missing or empty one yields exactly the CDN URL built by integer
division and modulo by 1000 with no URL-encoding; and the three stated
concrete CDN URLs come out as claimed. -/
theorem c2_get_download_url_spec (f : AddonFile) (s : String) :
    (f.download_url = some s → s ≠ "" → get_download_url f = s)
    ∧ ((f.download_url = none ∨ f.download_url = some "") →
        get_download_url f = "https://edge.forgecdn.net/files/" ++ toString (f.id / 1000)
          ++ "/" ++ toString (f.id % 1000) ++ "/" ++ f.file_name)
    ∧ endsWithStr (build_cdn_url 5433036 "mod.jar") "/files/5433/36/mod.jar" = true
    ∧ endsWithStr (build_cdn_url 1234 "test.jar") "/files/1/234/test.jar" = true
    ∧ endsWithStr (build_cdn_url 4000000 "mod.jar") "/files/4000/0/mod.jar" = true := by
  refine ⟨?_, ?_, by decide, by decide, by decide⟩
  · intro hsome hne
    unfold get_download_url
    rw [hsome]
    simp [hne]
  · intro hcase
    cases hcase with
    | inl h => simp [get_download_url, build_cdn_url, h]
    | inr h => simp [get_download_url, build_cdn_url, h]

/-- C2 witness: the theorem applied at a concrete AddonFile carrying a
non-empty downloadUrl. -/
theorem c2_witness :
    get_download_url ⟨123, "test.jar", some "https://example.com/test.jar", [], false, none⟩
      = "https://example.com/test.jar" :=
  (c2_get_download_url_spec
    ⟨123, "test.jar", some "https://example.com/test.jar", [], false, none⟩
    "https://example.com/test.jar").1 rfl (by decide)

/-- C3 counterexample: the archive whose only entry is a/b/manifest.json, two
path segments deep, is parsed successfully by _parse_manifest (its name ends
with /manifest.json), refuting success exactly at root-or-one-segment-deep. -/
theorem c3_counterexample :
    ¬ (∀ entries : List ZipEntry,
        exceptOk (parse_manifest entries) = true ↔
          ∃ e ∈ entries, rootOrOneDeep e.filename = true) := by
  intro hclaim
  have hok : exceptOk (parse_manifest [⟨"a/b/manifest.json", false, [123]⟩]) = true := by
    decide
  have hex := (hclaim [⟨"a/b/manifest.json", false, [123]⟩]).mp hok
  obtain ⟨e, he, hr⟩ := hex
  have he2 : e = ⟨"a/b/manifest.json", false, [123]⟩ := by
    simpa using he
  rw [he2] at hr
  have : rootOrOneDeep "a/b/manifest.json" = false := by decide
  simp [this] at hr

/-- C3 (amended): _parse_manifest succeeds exactly when the archive contains
an entry named manifest.json or one whose name ends with /manifest.json (a
manifest document whose final path segment is manifest.json, at any depth),
and fails with the manifest-not-found error if and only if no such entry
exists. -/
theorem c3_parse_manifest_amended (entries : List ZipEntry) :
    (exceptOk (parse_manifest entries) = true ↔
      ∃ e ∈ entries, manifest_entry_name e.filename = true)
    ∧ (parse_manifest entries = Except.error "No manifest.json found in modpack zip" ↔
      ¬ ∃ e ∈ entries, manifest_entry_name e.filename = true) := by
  unfold parse_manifest exceptOk
  cases hfind : entries.find? (fun e => manifest_entry_name e.filename) with
  | none =>
      rw [List.find?_eq_none] at hfind
      have hno : ¬ ∃ e ∈ entries, manifest_entry_name e.filename = true := by
        rintro ⟨e, he, hp⟩
        exact absurd hp (by simpa using hfind e he)
      simp [hno]
  | some e =>
      have hmem := List.mem_of_find?_eq_some hfind
      have hp := List.find?_some hfind
      have hex : ∃ x ∈ entries, manifest_entry_name x.filename = true := ⟨e, hmem, hp⟩
      simp [hex]

theorem resolve_one_key (api : Nat → Nat → ApiOutcome AddonFile)
    (f : CurseManifestFile) : entryKey (resolve_one api f).1 = entryKey f := by
  by_cases hc : (strTruthy f.file_name && strTruthy f.url) = true
  · simp [resolve_one, hc]
  · cases hapi : api f.project_id f.file_id <;>
      simp [resolve_one, entryKey, hc, hapi]

theorem runSchedule_apply (api : Nat → Nat → ApiOutcome AddonFile)
    (files : List CurseManifestFile) :
    ∀ (order : List Nat) (init : Nat → Option CurseManifestFile) (j : Nat),
      (order.foldl
        (fun slots i => fun j2 => if j2 = i then resolveValue api files i else slots j2)
        init) j
        = if j ∈ order then resolveValue api files j else init j := by
  intro order
  induction order with
  | nil =>
      intro init j
      simp
  | cons i rest ih =>
      intro init j
      simp only [List.foldl_cons]
      rw [ih]
      by_cases hjr : j ∈ rest
      · simp [hjr, List.mem_cons]
      · by_cases hji : j = i
        · simp [hjr, hji, List.mem_cons]
        · simp [hjr, hji, List.mem_cons]

/-- C4: resolution returns a list of the same length whose entry at index i
keeps input entry i's projectId, fileId and required flag; an entry already
carrying a truthy fileName and url passes through unchanged with no catalog
call; and any completion order that is a permutation of the indices yields
the same index-keyed result array. -/
theorem c4_resolution_order_stable (api : Nat → Nat → ApiOutcome AddonFile)
    (files : List CurseManifestFile) :
    (resolve_files api files).length = files.length
    ∧ (∀ i : Nat, ((resolve_files api files)[i]?).map entryKey = (files[i]?).map entryKey)
    ∧ (∀ f : CurseManifestFile, strTruthy f.file_name = true → strTruthy f.url = true →
        resolve_one api f = (f, []))
    ∧ (∀ order : List Nat, order.Perm (List.range files.length) →
        readout files.length (runSchedule api files order)
          = files.map (fun f => some ((resolve_one api f).1))) := by
  refine ⟨by simp [resolve_files], ?_, ?_, ?_⟩
  · intro i
    simp only [resolve_files, List.getElem?_map]
    cases hfi : files[i]? with
    | none => rfl
    | some f => simp [resolve_one_key]
  · intro f h1 h2
    unfold resolve_one
    simp [h1, h2]
  · intro order hperm
    have hmemo : ∀ j, j ∈ order ↔ j < files.length := by
      intro j
      rw [hperm.mem_iff, List.mem_range]
    apply List.ext_getElem
    · simp [readout]
    · intro i h1 h2
      have hi : i < files.length := by simpa [readout] using h1
      simp only [readout, runSchedule, List.getElem_map, List.getElem_range]
      rw [runSchedule_apply]
      rw [if_pos ((hmemo i).mpr hi)]
      unfold resolveValue
      rw [List.getElem?_eq_getElem hi]
      rfl

/-- C4 witness: the theorem applied with a concrete failing catalog, a
concrete pre-resolved entry, and the completion order that runs the single
task of a one-entry manifest. -/
theorem c4_witness :
    resolve_one (fun _ _ => ApiOutcome.failure) ⟨1, 2, some "a.jar", some "u", true⟩
      = (⟨1, 2, some "a.jar", some "u", true⟩, [])
    ∧ readout 1 (runSchedule (fun _ _ => ApiOutcome.failure) [⟨1, 2, none, none, true⟩] [0])
      = [(⟨1, 2, none, none, true⟩ : CurseManifestFile)].map
          (fun f => some ((resolve_one (fun _ _ => ApiOutcome.failure) f).1)) := by
  refine ⟨(c4_resolution_order_stable (fun _ _ => ApiOutcome.failure)
    [⟨1, 2, none, none, true⟩]).2.2.1 _ (by decide) (by decide), ?_⟩
  have h := (c4_resolution_order_stable (fun _ _ => ApiOutcome.failure)
    [⟨1, 2, none, none, true⟩]).2.2.2 [0] (by decide)
  simpa using h

/-- C5: a raised catalog lookup keeps the entry unchanged, the entry still
reaches the output manifest, it is excluded from the download set when its
fileName or url is still missing, and every entry of the download set has a
truthy fileName and url. -/
theorem c5_failed_lookup_degrades (api : Nat → Nat → ApiOutcome AddonFile)
    (files : List CurseManifestFile) (f : CurseManifestFile)
    (hfail : apiFailed (api f.project_id f.file_id) = true) :
    (resolve_one api f).1 = f
    ∧ (f ∈ files → f ∈ resolve_files api files)
    ∧ ((strTruthy f.file_name && strTruthy f.url) = false →
        f ∉ downloadable (resolve_files api files))
    ∧ (∀ g ∈ downloadable (resolve_files api files),
        strTruthy g.file_name = true ∧ strTruthy g.url = true) := by
  have hone : (resolve_one api f).1 = f := by
    by_cases hc : (strTruthy f.file_name && strTruthy f.url) = true
    · simp [resolve_one, hc]
    · cases hapi : api f.project_id f.file_id with
      | ok af => simp [apiFailed, hapi] at hfail
      | httpStatus c => simp [resolve_one, hc, hapi]
      | failure => simp [resolve_one, hc, hapi]
  refine ⟨hone, ?_, ?_, ?_⟩
  · intro hmem
    exact List.mem_map.mpr ⟨f, hmem, hone⟩
  · intro hfalse hmem
    rw [downloadable, List.mem_filter] at hmem
    exact absurd hmem.2 (by simp [hfalse])
  · intro g hg
    rw [downloadable, List.mem_filter] at hg
    have h2 := hg.2
    simp only [Bool.and_eq_true] at h2
    exact h2

/-- C5 witness: the theorem applied to a one-entry manifest whose lookup
answers with HTTP status 404. -/
theorem c5_witness :
    (resolve_one (fun _ _ => ApiOutcome.httpStatus 404) ⟨10, 20, none, none, true⟩).1
      = ⟨10, 20, none, none, true⟩
    ∧ (⟨10, 20, none, none, true⟩ : CurseManifestFile)
      ∉ downloadable (resolve_files (fun _ _ => ApiOutcome.httpStatus 404)
          [⟨10, 20, none, none, true⟩]) := by
  have h := c5_failed_lookup_degrades (fun _ _ => ApiOutcome.httpStatus 404)
    [⟨10, 20, none, none, true⟩] ⟨10, 20, none, none, true⟩ (by decide)
  exact ⟨h.1, h.2.2.1 (by decide)⟩

theorem pow_map_comm (n : Nat) :
    (List.range n).map (fun i => 2 ^ (1 + i)) = (List.range n).map (fun i => 2 ^ (i + 1)) := by
  apply List.map_congr_left
  intro i _
  congr 1
  omega

theorem go_bounds (oracle : Nat → AttemptOutcome) :
    ∀ (fuel attempt : Nat) (disk : Option (List Nat)) (waits : List Nat),
      (fuel = 0 → (download_go oracle fuel attempt disk waits).attemptsMade = attempt - 1)
      ∧ (1 ≤ fuel →
          attempt ≤ (download_go oracle fuel attempt disk waits).attemptsMade
          ∧ (download_go oracle fuel attempt disk waits).attemptsMade
              ≤ attempt - 1 + fuel) := by
  intro fuel
  induction fuel with
  | zero =>
      intro attempt disk waits
      exact ⟨fun _ => rfl, fun h => absurd h (by omega)⟩
  | succ fuel ih =>
      intro attempt disk waits
      refine ⟨fun h => absurd h (by omega), fun _ => ?_⟩
      unfold download_go
      cases horacle : oracle attempt with
      | success content =>
          dsimp only
          omega
      | failure leftover =>
          dsimp only
          by_cases hfuel : fuel = 0
          · rw [if_pos hfuel]
            dsimp only
            omega
          · rw [if_neg hfuel]
            have h1 := (ih (attempt + 1) none (2 ^ attempt :: waits)).2 (by omega)
            omega

theorem go_waits (oracle : Nat → AttemptOutcome) :
    ∀ (fuel attempt : Nat) (disk : Option (List Nat)) (waits : List Nat),
      (download_go oracle fuel attempt disk waits).waits
        = waits.reverse ++
          (List.range ((download_go oracle fuel attempt disk waits).attemptsMade
              - attempt)).map (fun i => 2 ^ (attempt + i)) := by
  intro fuel
  induction fuel with
  | zero =>
      intro attempt disk waits
      have h0 := (go_bounds oracle 0 attempt disk waits).1 rfl
      rw [show (download_go oracle 0 attempt disk waits).attemptsMade - attempt = 0
        from by omega]
      unfold download_go
      simp
  | succ fuel ih =>
      intro attempt disk waits
      unfold download_go
      cases horacle : oracle attempt with
      | success content => simp
      | failure leftover =>
          dsimp only
          by_cases hfuel : fuel = 0
          · rw [if_pos hfuel]
            simp
          · rw [if_neg hfuel]
            have hb := (go_bounds oracle fuel (attempt + 1) none (2 ^ attempt :: waits)).2
              (by omega)
            have hw := ih (attempt + 1) none (2 ^ attempt :: waits)
            rw [hw]
            rw [List.reverse_cons, List.append_assoc]
            congr 1
            have hm : (download_go oracle fuel (attempt + 1) none
                (2 ^ attempt :: waits)).attemptsMade - attempt
                = ((download_go oracle fuel (attempt + 1) none
                    (2 ^ attempt :: waits)).attemptsMade - (attempt + 1)) + 1 := by omega
            rw [hm, List.range_succ_eq_map]
            simp only [List.map_cons, List.map_map, Nat.add_zero, List.singleton_append]
            congr 1
            apply List.map_congr_left
            intro i _
            simp only [Function.comp]
            congr 1
            omega

theorem go_allfail (oracle : Nat → AttemptOutcome)
    (hfail : ∀ a, attemptFailed (oracle a) = true) :
    ∀ (fuel attempt : Nat) (disk : Option (List Nat)) (waits : List Nat),
      1 ≤ fuel → 1 ≤ attempt →
      (download_go oracle fuel attempt disk waits).recordedFailed = true
      ∧ (download_go oracle fuel attempt disk waits).disk = none
      ∧ (download_go oracle fuel attempt disk waits).attemptsMade
          = attempt - 1 + fuel := by
  intro fuel
  induction fuel with
  | zero =>
      intro attempt disk waits h
      exact absurd h (by omega)
  | succ fuel ih =>
      intro attempt disk waits _ hatt
      unfold download_go
      cases horacle : oracle attempt with
      | success content =>
          have hc := hfail attempt
          rw [horacle] at hc
          simp [attemptFailed] at hc
      | failure leftover =>
          dsimp only
          by_cases hfuel : fuel = 0
          · rw [if_pos hfuel]
            refine ⟨rfl, rfl, ?_⟩
            dsimp only
            omega
          · rw [if_neg hfuel]
            have h := ih (attempt + 1) none (2 ^ attempt :: waits) (by omega) (by omega)
            exact ⟨h.1, h.2.1, by omega⟩

/-- C6: each failing download target is attempted at most maxRetries times
with the 1-based counter; the backoff slept after failed attempt number a is
2 ^ a; when every attempt raises, the run ends with the partial file deleted
and the entry recorded as failed; the stage hands every sibling target to its
own run; and the stated two-failures-then-success scenario ends with the full
content on disk, three attempts, waits 2 and 4, and no failure recorded. -/
theorem c6_download_retry_backoff (oracle : Nat → AttemptOutcome) (maxRetries : Nat) :
    (download_one oracle maxRetries none).attemptsMade ≤ maxRetries
    ∧ (download_one oracle maxRetries none).waits
        = (List.range ((download_one oracle maxRetries none).attemptsMade - 1)).map
            (fun i => 2 ^ (i + 1))
    ∧ ((∀ a, attemptFailed (oracle a) = true) → 1 ≤ maxRetries →
        download_one oracle maxRetries none
          = ⟨none, maxRetries, (List.range (maxRetries - 1)).map (fun i => 2 ^ (i + 1)), true⟩)
    ∧ (∀ plans : List ((Nat → AttemptOutcome) × Option (List Nat)),
        (download_files maxRetries plans).length = plans.length)
    ∧ download_one (fun a => if a = 1 then AttemptOutcome.failure (some [1])
          else if a = 2 then AttemptOutcome.failure (some [2, 2])
          else AttemptOutcome.success [9, 9, 9]) 3 none
        = ⟨some [9, 9, 9], 3, [2, 4], false⟩ := by
  refine ⟨?_, ?_, ?_, ?_, by decide⟩
  · unfold download_one
    dsimp only
    cases maxRetries with
    | zero =>
        have h0 := (go_bounds oracle 0 1 none []).1 rfl
        omega
    | succ n =>
        have hb := (go_bounds oracle (n + 1) 1 none []).2 (by omega)
        omega
  · unfold download_one
    dsimp only
    have hw := go_waits oracle maxRetries 1 none []
    rw [hw]
    simp only [List.reverse_nil, List.nil_append]
    exact pow_map_comm _
  · intro hfail hmax
    unfold download_one
    dsimp only
    rcases go_allfail oracle hfail maxRetries 1 none [] (by omega) (by omega)
      with ⟨hrec, hdisk, hatt⟩
    have hw := go_waits oracle maxRetries 1 none []
    cases hgo : download_go oracle maxRetries 1 none [] with
    | mk d a w r =>
        rw [hgo] at hrec hdisk hatt hw
        simp only at hrec hdisk hatt hw
        rw [hdisk, hrec, hw]
        simp only [List.reverse_nil, List.nil_append]
        rw [pow_map_comm]
        rw [show a = maxRetries from by omega]
  · intro plans
    simp [download_files]

/-- C6 witness: the theorem applied to the always-failing stream oracle with
three configured attempts. -/
theorem c6_witness :
    download_one (fun _ => AttemptOutcome.failure none) 3 none
      = ⟨none, 3, [2, 4], true⟩ := by
  have h := (c6_download_retry_backoff (fun _ => AttemptOutcome.failure none) 3).2.2.1
    (fun _ => rfl) (by omega)
  rw [h]
  rfl

/-- C7: a target whose destination already exists is returned untouched with
zero attempts (no network request, bytes unchanged), and a run in which every
destination pre-exists performs zero download attempts in total. -/
theorem c7_existing_destination_skipped (oracle : Nat → AttemptOutcome) (maxRetries : Nat)
    (content : List Nat)
    (plans : List ((Nat → AttemptOutcome) × Option (List Nat))) :
    download_one oracle maxRetries (some content) = ⟨some content, 0, [], false⟩
    ∧ ((∀ p ∈ plans, p.2.isSome = true) →
        ((download_files maxRetries plans).map (fun r => r.attemptsMade)).sum = 0) := by
  refine ⟨rfl, ?_⟩
  intro hall
  apply List.sum_eq_zero
  intro x hx
  simp only [download_files, List.map_map, List.mem_map] at hx
  obtain ⟨p, hp, hxe⟩ := hx
  have hsome := hall p hp
  cases hps : p.2 with
  | none =>
      rw [hps] at hsome
      simp at hsome
  | some c =>
      rw [← hxe]
      simp [Function.comp, download_one, hps]

/-- C7 witness: the theorem applied with a pre-existing destination and a
one-target stage whose destination pre-exists. -/
theorem c7_witness :
    download_one (fun _ => AttemptOutcome.failure none) 3 (some [7])
      = ⟨some [7], 0, [], false⟩
    ∧ ((download_files 3 [((fun _ => AttemptOutcome.failure none), some [1])]).map
        (fun r => r.attemptsMade)).sum = 0 := by
  have h := c7_existing_destination_skipped (fun _ => AttemptOutcome.failure none) 3 [7]
    [((fun _ => AttemptOutcome.failure none), some [1])]
  refine ⟨h.1, h.2 ?_⟩
  intro p hp
  rw [List.mem_singleton.mp hp]
  rfl

/-- C8: classification queries each distinct referenced project exactly once,
maps classId 12 to resourcepacks, 6552 to shaderpacks and every other class
to mods, pairs every entry with the subdirectory of its project, and a raised
project lookup defaults that project to mods instead of aborting. -/
theorem c8_classification (api : Nat → ApiOutcome CurseAddon)
    (files : List CurseManifestFile) :
    (∀ pid, pid ∈ files.map (fun f => f.project_id) → (queried_ids files).count pid = 1)
    ∧ (∀ pid, pid ∉ files.map (fun f => f.project_id) → (queried_ids files).count pid = 0)
    ∧ (∀ f ∈ files, (f, class_subdir (fetch_class_id api f.project_id))
        ∈ determine_file_targets api files)
    ∧ (∀ addon pid, api pid = ApiOutcome.ok addon →
        fetch_class_id api pid = addon.class_id)
    ∧ (∀ pid, projectCallFailed (api pid) = true → fetch_class_id api pid = SECTION_MOD)
    ∧ class_subdir SECTION_RESOURCE_PACK = "resourcepacks"
    ∧ class_subdir SECTION_SHADER_PACK = "shaderpacks"
    ∧ (∀ cid, cid ≠ SECTION_RESOURCE_PACK → cid ≠ SECTION_SHADER_PACK →
        class_subdir cid = "mods") := by
  refine ⟨?_, ?_, ?_, ?_, ?_, rfl, rfl, ?_⟩
  · intro pid hmem
    exact List.count_eq_one_of_mem (List.nodup_dedup _) (List.mem_dedup.mpr hmem)
  · intro pid hmem
    exact List.count_eq_zero.mpr (fun hc => hmem (List.mem_dedup.mp hc))
  · intro f hf
    exact List.mem_map.mpr ⟨f, hf, rfl⟩
  · intro addon pid h
    unfold fetch_class_id
    rw [h]
  · intro pid h
    unfold fetch_class_id
    cases hapi : api pid with
    | ok addon =>
        rw [hapi] at h
        simp [projectCallFailed] at h
    | httpStatus c => rfl
    | failure => rfl
  · intro cid h1 h2
    unfold class_subdir
    rw [if_neg h1, if_neg h2]

/-- C8 witness: the theorem applied to two entries of one project with a
catalog whose project lookup raises. -/
theorem c8_witness :
    (queried_ids [⟨5, 1, none, none, true⟩, ⟨5, 2, none, none, true⟩]).count 5 = 1
    ∧ fetch_class_id (fun _ => ApiOutcome.failure) 5 = SECTION_MOD
    ∧ class_subdir 7 = "mods" := by
  have h := c8_classification (fun _ => ApiOutcome.failure)
    [⟨5, 1, none, none, true⟩, ⟨5, 2, none, none, true⟩]
  exact ⟨h.1 5 (by decide), h.2.2.2.2.1 5 rfl,
    h.2.2.2.2.2.2.2 7 (by decide) (by decide)⟩

theorem step_select (op : String) (acc : List (String × List Nat) × Nat) (info : ZipEntry) :
    (if startsWithStr info.filename (normalizedOverrides op) then
      if (relAfter op info.filename).data.isEmpty || info.isDir then acc
      else (acc.1 ++ [(relAfter op info.filename, info.content)], acc.2 + 1)
    else acc)
    = match overridesSelect op info with
      | some w => (acc.1 ++ [w], acc.2 + 1)
      | none => acc := by
  unfold overridesSelect
  by_cases h1 : startsWithStr info.filename (normalizedOverrides op) = true
  · cases hdir : info.isDir with
    | true => simp [h1, hdir]
    | false =>
        cases hemp : (relAfter op info.filename).data with
        | nil => simp [h1, hdir, hemp]
        | cons c cs => simp [h1, hdir, hemp]
  · simp [h1]

theorem extract_foldl (op : String) :
    ∀ (entries : List ZipEntry) (acc : List (String × List Nat) × Nat),
      entries.foldl
        (fun acc info =>
          if startsWithStr info.filename (normalizedOverrides op) then
            let rel := relAfter op info.filename
            if rel.data.isEmpty || info.isDir then acc
            else (acc.1 ++ [(rel, info.content)], acc.2 + 1)
          else acc) acc
      = (acc.1 ++ entries.filterMap (overridesSelect op),
          acc.2 + (entries.filterMap (overridesSelect op)).length) := by
  intro entries
  induction entries with
  | nil =>
      intro acc
      simp
  | cons info rest ih =>
      intro acc
      rw [List.foldl_cons]
      show (List.foldl _
        (if startsWithStr info.filename (normalizedOverrides op) then
          if (relAfter op info.filename).data.isEmpty || info.isDir then acc
          else (acc.1 ++ [(relAfter op info.filename, info.content)], acc.2 + 1)
        else acc) rest) = _
      rw [step_select op acc info]
      cases hsel : overridesSelect op info with
      | none =>
          rw [ih]
          simp [List.filterMap_cons, hsel]
      | some w =>
          rw [ih]
          simp [List.filterMap_cons, hsel]
          omega

/-- C9: extraction writes exactly the archive entries inside the overrides
subtree (prefix stripped), the returned count equals the number of writes,
every write stems from a non-directory entry whose name is the normalized
overrides name followed by the non-empty relative path, and an entry outside
the subtree or a directory entry produces no write. -/
theorem c9_extract_overrides (entries : List ZipEntry) (op : String) :
    (extract_overrides entries op).1 = entries.filterMap (overridesSelect op)
    ∧ (extract_overrides entries op).2 = (extract_overrides entries op).1.length
    ∧ (∀ w ∈ (extract_overrides entries op).1, ∃ e ∈ entries,
        e.isDir = false
        ∧ e.filename.data = (normalizedOverrides op).data ++ w.1.data
        ∧ w.1.data ≠ [] ∧ w.2 = e.content)
    ∧ (∀ e ∈ entries,
        (startsWithStr e.filename (normalizedOverrides op) = false ∨ e.isDir = true) →
        overridesSelect op e = none) := by
  have hfold := extract_foldl op entries ([], 0)
  have h1 : (extract_overrides entries op).1 = entries.filterMap (overridesSelect op) := by
    unfold extract_overrides
    rw [hfold]
    simp
  have h2 : (extract_overrides entries op).2
      = (entries.filterMap (overridesSelect op)).length := by
    unfold extract_overrides
    rw [hfold]
    simp
  refine ⟨h1, by rw [h1, h2], ?_, ?_⟩
  · intro w hw
    rw [h1] at hw
    obtain ⟨e, he, hsel⟩ := List.mem_filterMap.mp hw
    refine ⟨e, he, ?_⟩
    unfold overridesSelect at hsel
    by_cases hcond : (startsWithStr e.filename (normalizedOverrides op)
        && !e.isDir
        && !(relAfter op e.filename).data.isEmpty) = true
    · rw [if_pos hcond] at hsel
      have hw2 := Option.some.inj hsel
      simp only [Bool.and_eq_true, Bool.not_eq_true'] at hcond
      obtain ⟨⟨hstart, hdir⟩, hne⟩ := hcond
      have hpre : (normalizedOverrides op).data <+: e.filename.data :=
        List.isPrefixOf_iff_prefix.mp hstart
      obtain ⟨t, ht⟩ := hpre
      refine ⟨hdir, ?_, ?_, ?_⟩
      · rw [← hw2]
        unfold relAfter dropChars
        dsimp only
        rw [← ht, List.drop_left]
      · rw [← hw2]
        intro hnil
        dsimp only at hnil
        rw [hnil] at hne
        simp at hne
      · rw [← hw2]
    · rw [if_neg hcond] at hsel
      exact absurd hsel (by simp)
  · intro e _ hcase
    unfold overridesSelect
    cases hcase with
    | inl h => simp [h]
    | inr h => simp [h]

/-- C9 witness: the theorem applied to a small archive holding one file
inside the overrides subtree, one directory entry and one file outside it. -/
theorem c9_witness :
    (extract_overrides
      [⟨"overrides/config/a.cfg", false, [1, 2]⟩,
       ⟨"overrides/config/", true, []⟩,
       ⟨"other/b.txt", false, [3]⟩] "overrides").1
      = [("config/a.cfg", [1, 2])]
    ∧ overridesSelect "overrides" ⟨"other/b.txt", false, [3]⟩ = none := by
  have h := c9_extract_overrides
    [⟨"overrides/config/a.cfg", false, [1, 2]⟩,
     ⟨"overrides/config/", true, []⟩,
     ⟨"other/b.txt", false, [3]⟩] "overrides"
  refine ⟨?_, h.2.2.2 ⟨"other/b.txt", false, [3]⟩ (by decide) (Or.inl (by decide))⟩
  rw [h.1]
  decide

theorem mergeSort_head_max (l : List AddonFile) (hne : l ≠ []) :
    ∃ c rest, l.mergeSort (fun a b => decide (dateKey b ≤ dateKey a)) = c :: rest
      ∧ c ∈ l ∧ ∀ f ∈ l, dateKey f ≤ dateKey c := by
  have hperm := List.mergeSort_perm l (fun a b => decide (dateKey b ≤ dateKey a))
  have hsorted := @List.sorted_mergeSort AddonFile
    (fun a b => decide (dateKey b ≤ dateKey a))
    (fun a b c hab hbc => by
      simp only [decide_eq_true_eq] at hab hbc ⊢
      omega)
    (fun a b => by
      simp only [Bool.or_eq_true, decide_eq_true_eq]
      omega) l
  cases hms : l.mergeSort (fun a b => decide (dateKey b ≤ dateKey a)) with
  | nil =>
      rw [hms] at hperm
      exact absurd hperm.symm.eq_nil hne
  | cons c rest =>
      rw [hms] at hperm hsorted
      refine ⟨c, rest, rfl, hperm.mem_iff.mp (List.mem_cons_self c rest), ?_⟩
      intro f hf
      have hf2 : f ∈ c :: rest := hperm.symm.mem_iff.mp hf
      cases List.mem_cons.mp hf2 with
      | inl h =>
          rw [h]
      | inr h =>
          have hrel := (List.pairwise_cons.mp hsorted).1 f h
          simpa using hrel

theorem select_latest_file_eq (addon : CurseAddon) (gv : String) :
    select_latest_file addon gv
      = match (selectPool addon gv).mergeSort (fun a b => decide (dateKey b ≤ dateKey a)) with
        | [] => none
        | c :: _ => some c := rfl

theorem selectPool_ne_nil (addon : CurseAddon) (gv : String)
    (h : latest_candidates addon ≠ []) : selectPool addon gv ≠ [] := by
  unfold selectPool
  by_cases h1 : (gv == "") = true
  · rw [if_pos h1]
    exact h
  · rw [if_neg h1]
    by_cases h2 : ((latest_candidates addon).filter
        (fun f => f.game_versions.contains gv)).isEmpty = true
    · rw [if_pos h2]
      exact h
    · rw [if_neg h2]
      intro hf
      rw [hf] at h2
      exact h2 List.isEmpty_nil

/-- C10: with a non-empty version filter that no non-server-pack named
candidate satisfies, _select_latest_file silently drops the filter and
returns a candidate of maximal file date; and it returns None exactly when
no candidate exists at all. -/
theorem c10_version_filter_fallback (addon : CurseAddon) (gv : String) :
    (¬ gv = "" → (∀ f ∈ latest_candidates addon, gv ∉ f.game_versions) →
      latest_candidates addon ≠ [] →
      ∃ c, select_latest_file addon gv = some c ∧ c ∈ latest_candidates addon
        ∧ ∀ f ∈ latest_candidates addon, dateKey f ≤ dateKey c)
    ∧ (select_latest_file addon gv = none ↔ latest_candidates addon = []) := by
  constructor
  · intro hgv hnover hne
    have hfil : (latest_candidates addon).filter
        (fun f => f.game_versions.contains gv) = [] := by
      rw [List.filter_eq_nil_iff]
      intro f hf hc
      exact hnover f hf (by simpa using hc)
    have hpool : selectPool addon gv = latest_candidates addon := by
      unfold selectPool
      rw [if_neg (by simpa using hgv), hfil, if_pos List.isEmpty_nil]
    obtain ⟨c, rest, hms, hcm, hmax⟩ := mergeSort_head_max (latest_candidates addon) hne
    refine ⟨c, ?_, hcm, hmax⟩
    rw [select_latest_file_eq, hpool, hms]
  · rw [select_latest_file_eq]
    constructor
    · intro hnone
      by_contra hne
      obtain ⟨c, rest, hms, _, _⟩ :=
        mergeSort_head_max (selectPool addon gv) (selectPool_ne_nil addon gv hne)
      rw [hms] at hnone
      simp at hnone
    · intro hemp
      have hpool0 : selectPool addon gv = [] := by
        unfold selectPool
        rw [hemp]
        simp
      rw [hpool0]
      rw [List.mergeSort_nil]

/-- C10 witness: the theorem applied to an addon with two dated candidates,
neither listing the requested game version. -/
theorem c10_witness :
    ∃ c, select_latest_file
        ⟨7, 6, [⟨1, "a.jar", none, ["1.19"], false, some 5⟩,
                ⟨2, "b.jar", none, ["1.18"], false, some 9⟩]⟩ "1.20" = some c
      ∧ c ∈ latest_candidates
          ⟨7, 6, [⟨1, "a.jar", none, ["1.19"], false, some 5⟩,
                  ⟨2, "b.jar", none, ["1.18"], false, some 9⟩]⟩
      ∧ ∀ f ∈ latest_candidates
          ⟨7, 6, [⟨1, "a.jar", none, ["1.19"], false, some 5⟩,
                  ⟨2, "b.jar", none, ["1.18"], false, some 9⟩]⟩,
          dateKey f ≤ dateKey c :=
  (c10_version_filter_fallback
    ⟨7, 6, [⟨1, "a.jar", none, ["1.19"], false, some 5⟩,
            ⟨2, "b.jar", none, ["1.18"], false, some 9⟩]⟩ "1.20").1
    (by decide) (by decide) (by decide)

end CurseforgeDl
